import Mathlib

/-!
Verification of the plunkit game-server core (`plunkit_server` subtree).

The Rust sources are shallowly embedded: byte buffers are `List Nat`
(each element a byte value), machine integers are `Int`/`Nat` with
explicit two's-complement conversions, `Vec`-backed arrays are total
functions from the flat index used by the source, and fallible code
returns `Except`.  Rust's `/` on a signed integer shifted arithmetically
(`>>`) is floor division, which is Lean's `Int` division (`Int.ediv`);
`x & (2^k - 1)` on two's complement is `x % 2^k` (`Int.emod`).
-/

set_option maxRecDepth 10000

deriving instance DecidableEq for Except

instance {α : Type} (o : Option α) : Decidable (o = none) := Option.decidable_eq_none

namespace Plunkit

/-- Interpretation of a 64-bit two's-complement bit pattern as a signed value (Rust `i64`). -/
def toI64 (p : Nat) : Int := if p < 2 ^ 63 then (p : Int) else (p : Int) - 2 ^ 64

/-- Interpretation of a 32-bit two's-complement bit pattern as a signed value (Rust `i32`). -/
def toI32 (p : Nat) : Int := if p < 2 ^ 31 then (p : Int) else (p : Int) - 2 ^ 32

/-- Bit pattern of an integer value in `w`-bit two's complement
(Rust's `as u64` / `as usize` style casts). -/
def toPat (w : Nat) (v : Int) : Nat := (v % 2 ^ w).toNat

/-- Rust `as i32` truncation of a wider signed value. -/
def asI32 (v : Int) : Int := toI32 (toPat 32 v)

/-- ProtocolError from protocol/types.rs (the `Io` payload is dropped: no I/O is modelled). -/
inductive ProtocolError
  | ioError
  | invalidPacket
  | unsupportedVersion
  | invalidState
  | stringTooLong
  deriving DecidableEq

/-- Loop of `MCReadExt::read_varint` (protocol/types.rs).  `result` is the
accumulated i32 bit pattern, `numRead` the number of bytes consumed so far.
The source computes `result |= value << (7 * num_read)` before the
`num_read > 5` check; a shift amount of 35 on the sixth byte is masked to
`35 % 32` (Rust release semantics), and the i32 `<<` discards bits above 31,
hence the `% 2 ^ 32`. -/
def read_varint_loop : List Nat → Nat → Nat → Except ProtocolError (Int × List Nat)
  | [], _, _ => .error .invalidPacket
  | read :: buf, numRead, result =>
    let value := read &&& 127
    let result' := result ||| ((value <<< (7 * numRead % 32)) % 2 ^ 32)
    if numRead + 1 > 5 then .error .invalidPacket
    else if read &&& 128 = 0 then .ok (toI32 result', buf)
    else read_varint_loop buf (numRead + 1) result'

/-- MCReadExt::read_varint: returns the decoded i32 and the unconsumed remainder. -/
def read_varint (buf : List Nat) : Except ProtocolError (Int × List Nat) :=
  read_varint_loop buf 0 0

/-- Loop of `MCWriteExt::write_varint` (protocol/types.rs).  The source shifts with
`value >>= 7`, an ARITHMETIC shift on `i32`, i.e. floor division by 128; and masks
with `value & 0b0111_1111`, i.e. `value % 128` in two's complement.  For negative
inputs the shift never reaches 0, so the Rust loop does not terminate; the model
therefore takes fuel, `none` meaning the loop has not finished within `fuel`
iterations. -/
def write_varint_loop : Nat → Int → Option (List Nat)
  | 0, _ => none
  | fuel + 1, value =>
    let temp := (value % 128).toNat
    let value' := value / 128
    if value' = 0 then some [temp]
    else (write_varint_loop fuel value').map (fun bytes => (temp ||| 128) :: bytes)

/-- MCWriteExt::write_varint with enough fuel for every terminating (non-negative)
i32 input: a non-negative i32 finishes within 5 iterations. -/
def write_varint (v : Int) : Option (List Nat) := write_varint_loop 5 v

/-- Loop of `varint_len` (protocol/types.rs), with the same arithmetic-shift
non-termination on negative values, hence the same fuel discipline. -/
def varint_len_loop : Nat → Int → Option Nat
  | 0, _ => none
  | fuel + 1, value =>
    let value' := value / 128
    if value' = 0 then some 1
    else (varint_len_loop fuel value').map (· + 1)

/-- varint_len from protocol/types.rs. -/
def varint_len (v : Int) : Option Nat := varint_len_loop 5 v

/-- Base-128 little-endian digits with continuation bits, as produced by the
`write_varint` loop on a non-negative value; used to reason about the writer. -/
def varintBytes (v : Nat) : List Nat :=
  if v < 128 then [v] else (v % 128 + 128) :: varintBytes (v / 128)
termination_by v
decreasing_by exact Nat.div_lt_self (by omega) (by omega)

theorem varintBytes_lt (v : Nat) (h : v < 128) : varintBytes v = [v] := by
  rw [varintBytes, if_pos h]

theorem varintBytes_ge (v : Nat) (h : 128 ≤ v) :
    varintBytes v = (v % 128 + 128) :: varintBytes (v / 128) := by
  rw [varintBytes, if_neg (by omega)]

theorem varintBytes_length_pos (v : Nat) : 0 < (varintBytes v).length := by
  rw [varintBytes]
  split <;> simp

/-- The write_varint loop on a non-negative value emits exactly the base-128
digit list, provided the fuel covers its length. -/
theorem write_varint_loop_nonneg (fuel : Nat) : ∀ v : Nat,
    (varintBytes v).length ≤ fuel →
    write_varint_loop fuel (v : Int) = some (varintBytes v) := by
  induction fuel with
  | zero =>
    intro v h
    have := varintBytes_length_pos v
    omega
  | succ fuel ih =>
    intro v h
    show (if ((v : Int) / 128) = 0 then some [(((v : Int) % 128)).toNat]
      else (write_varint_loop fuel ((v : Int) / 128)).map
        (fun bytes => ((((v : Int) % 128)).toNat ||| 128) :: bytes)) = _
    have hq : (v : Int) / 128 = ((v / 128 : Nat) : Int) := by omega
    have hr : ((v : Int) % 128).toNat = v % 128 := by omega
    by_cases hv : v < 128
    · have : (v : Int) / 128 = 0 := by omega
      rw [if_pos this, varintBytes_lt v hv]
      simp [hr, Nat.mod_eq_of_lt hv]
    · have hne : ¬((v : Int) / 128 = 0) := by omega
      have hlen : (varintBytes (v / 128)).length ≤ fuel := by
        rw [varintBytes_ge v (by omega)] at h
        simpa using Nat.le_of_succ_le_succ h
      rw [if_neg hne, hq, ih (v / 128) hlen, varintBytes_ge v (by omega), hr]
      have hlor : v % 128 ||| 128 = v % 128 + 128 := by
        have h7 : v % 128 < 2 ^ 7 := by
          have := Nat.mod_lt v (y := 128) (by omega)
          omega
        have := Nat.mul_add_lt_is_or h7 1
        rw [Nat.lor_comm]
        simpa [Nat.add_comm] using this.symm
      simp [hlor]

/-- The varint_len loop agrees with the length of the emitted digits. -/
theorem varint_len_loop_nonneg (fuel : Nat) : ∀ v : Nat,
    (varintBytes v).length ≤ fuel →
    varint_len_loop fuel (v : Int) = some (varintBytes v).length := by
  induction fuel with
  | zero =>
    intro v h
    have := varintBytes_length_pos v
    omega
  | succ fuel ih =>
    intro v h
    show (if ((v : Int) / 128) = 0 then some 1
      else (varint_len_loop fuel ((v : Int) / 128)).map (· + 1)) = _
    have hq : (v : Int) / 128 = ((v / 128 : Nat) : Int) := by omega
    by_cases hv : v < 128
    · have : (v : Int) / 128 = 0 := by omega
      rw [if_pos this, varintBytes_lt v hv]
      simp
    · have hne : ¬((v : Int) / 128 = 0) := by omega
      have hlen : (varintBytes (v / 128)).length ≤ fuel := by
        rw [varintBytes_ge v (by omega)] at h
        simpa using Nat.le_of_succ_le_succ h
      rw [if_neg hne, hq, ih (v / 128) hlen, varintBytes_ge v (by omega)]
      simp

/-- Digit-list length bound: a value below `128 ^ k` needs at most `k` digits. -/
theorem varintBytes_length_le : ∀ k v : Nat, 1 ≤ k → v < 128 ^ k →
    (varintBytes v).length ≤ k := by
  intro k
  induction k with
  | zero => omega
  | succ k ih =>
    intro v _ hv
    by_cases hsm : v < 128
    · rw [varintBytes_lt v hsm]; simp
    · rw [varintBytes_ge v (by omega)]
      by_cases hk : 1 ≤ k
      · have : v / 128 < 128 ^ k := by
          rw [Nat.div_lt_iff_lt_mul (by omega)]
          calc v < 128 ^ (k + 1) := hv
          _ = 128 ^ k * 128 := by ring
        simpa using ih (v / 128) hk this
      · exfalso
        have : k = 0 := by omega
        subst this
        simp at hv
        omega

theorem and127 (b : Nat) : b &&& 127 = b % 128 := by
  have h := Nat.and_pow_two_sub_one_eq_mod b 7
  norm_num at h
  exact h

theorem and128_of_lt (b : Nat) (h : b < 128) : b &&& 128 = 0 := by
  have h1 := Nat.and_two_pow b 7
  have h2 : b.testBit 7 = false := Nat.testBit_lt_two_pow (by norm_num; omega)
  rw [h2] at h1
  norm_num at h1
  exact h1

theorem and128_of_ge (b : Nat) (h1 : 128 ≤ b) (h2 : b < 256) : b &&& 128 = 128 := by
  have ha := Nat.and_two_pow b 7
  have hd : b / 2 ^ 7 % 2 = 1 := by norm_num; omega
  rw [Nat.testBit_to_div_mod, hd] at ha
  norm_num at ha
  exact ha

theorem read_varint_loop_cons (b : Nat) (l : List Nat) (numRead result : Nat) :
    read_varint_loop (b :: l) numRead result =
      (if numRead + 1 > 5 then .error .invalidPacket
       else if b &&& 128 = 0 then
         .ok (toI32 (result ||| (((b &&& 127) <<< (7 * numRead % 32)) % 2 ^ 32)), l)
       else read_varint_loop l (numRead + 1)
         (result ||| (((b &&& 127) <<< (7 * numRead % 32)) % 2 ^ 32))) := rfl

theorem lor_small_mul (result v k : Nat) (hres : result < 2 ^ k) :
    result ||| v * 2 ^ k = v * 2 ^ k + result := by
  rw [Nat.lor_comm, Nat.mul_comm]
  have := Nat.mul_add_lt_is_or hres v
  omega

/-- Main reader lemma: the read_varint loop consumes exactly the digits produced
by the writer and accumulates the written value above the bits already read. -/
theorem read_varint_loop_spec (v : Nat) : ∀ (numRead result : Nat) (rest : List Nat),
    (varintBytes v).length + numRead ≤ 5 →
    result < 2 ^ (7 * numRead) →
    v * 2 ^ (7 * numRead) + result < 2 ^ 32 →
    read_varint_loop (varintBytes v ++ rest) numRead result
      = .ok (toI32 (v * 2 ^ (7 * numRead) + result), rest) := by
  induction v using Nat.strong_induction_on with
  | _ v ih =>
  intro numRead result rest hlen hres hlt
  have hsh : 7 * numRead % 32 = 7 * numRead := by
    apply Nat.mod_eq_of_lt
    have := varintBytes_length_pos v
    omega
  by_cases hv : v < 128
  · rw [varintBytes_lt v hv] at hlen ⊢
    simp only [List.cons_append, List.nil_append, read_varint_loop_cons]
    simp only [List.length_cons, List.length_nil] at hlen
    rw [if_neg (by omega), if_pos (and128_of_lt v hv), and127, Nat.mod_eq_of_lt hv, hsh,
      Nat.shiftLeft_eq,
      Nat.mod_eq_of_lt (Nat.lt_of_le_of_lt (Nat.le_add_right _ _) hlt),
      lor_small_mul result v (7 * numRead) hres]
  · rw [varintBytes_ge v (by omega)] at hlen ⊢
    simp only [List.cons_append, read_varint_loop_cons]
    simp only [List.length_cons] at hlen
    have hb1 : 128 ≤ v % 128 + 128 := by omega
    have hb2 : v % 128 + 128 < 256 := by
      have := Nat.mod_lt v (y := 128) (by omega)
      omega
    rw [if_neg (by omega), if_neg (by rw [and128_of_ge _ hb1 hb2]; omega), and127]
    have hmm : (v % 128 + 128) % 128 = v % 128 := by omega
    have hsmall : (v % 128) * 2 ^ (7 * numRead) < 2 ^ 32 :=
      Nat.lt_of_le_of_lt
        (Nat.le_trans (Nat.mul_le_mul_right _ (Nat.mod_le v 128)) (Nat.le_add_right _ _)) hlt
    rw [hmm, hsh, Nat.shiftLeft_eq, Nat.mod_eq_of_lt hsmall,
      lor_small_mul result (v % 128) (7 * numRead) hres]
    have hpow : (2 : Nat) ^ (7 * (numRead + 1)) = 2 ^ (7 * numRead) * 128 := by
      rw [show 7 * (numRead + 1) = 7 * numRead + 7 by ring, pow_add]
      norm_num
    have hdecomp : v / 128 * 2 ^ (7 * (numRead + 1)) + ((v % 128) * 2 ^ (7 * numRead) + result)
        = v * 2 ^ (7 * numRead) + result := by
      rw [hpow]
      calc v / 128 * (2 ^ (7 * numRead) * 128) + ((v % 128) * 2 ^ (7 * numRead) + result)
          = (128 * (v / 128) + v % 128) * 2 ^ (7 * numRead) + result := by ring
        _ = v * 2 ^ (7 * numRead) + result := by rw [Nat.div_add_mod]
    have hres' : (v % 128) * 2 ^ (7 * numRead) + result < 2 ^ (7 * (numRead + 1)) := by
      rw [hpow]
      have h1 : (v % 128) * 2 ^ (7 * numRead) ≤ 127 * 2 ^ (7 * numRead) :=
        Nat.mul_le_mul_right _ (by omega)
      have h2 : (0 : Nat) < 2 ^ (7 * numRead) := Nat.pos_pow_of_pos _ (by omega)
      generalize (2 : Nat) ^ (7 * numRead) = K at h1 h2 hres ⊢
      generalize (v % 128) * K = A at h1 ⊢
      omega
    rw [ih (v / 128) (Nat.div_lt_self (by omega) (by omega)) (numRead + 1)
      ((v % 128) * 2 ^ (7 * numRead) + result) rest (by omega) hres'
      (by rw [hdecomp]; exact hlt), hdecomp]

/-- A buffer consisting only of continuation bytes makes the read loop fail
(either by exhausting the buffer or by exceeding five bytes). -/
theorem read_varint_loop_all_cont : ∀ (l : List Nat), (∀ b ∈ l, b &&& 128 ≠ 0) →
    ∀ numRead result, read_varint_loop l numRead result = .error .invalidPacket := by
  intro l
  induction l with
  | nil => intro _ _ _; rfl
  | cons b l ihl =>
    intro hall numRead result
    rw [read_varint_loop_cons]
    by_cases h5 : numRead + 1 > 5
    · rw [if_pos h5]
    · rw [if_neg h5, if_neg (hall b (by simp))]
      exact ihl (fun c hc => hall c (by simp [hc])) _ _

/-- Every byte of a strict prefix of the writer's output is a continuation byte. -/
theorem varintBytes_take_cont (v : Nat) : ∀ n, n < (varintBytes v).length →
    ∀ b ∈ (varintBytes v).take n, 128 ≤ b ∧ b < 256 := by
  induction v using Nat.strong_induction_on with
  | _ v ih =>
  intro n hn b hb
  by_cases hv : v < 128
  · rw [varintBytes_lt v hv] at hn hb
    simp at hn
    subst hn
    simp at hb
  · rw [varintBytes_ge v (by omega)] at hn hb
    match n with
    | 0 => simp at hb
    | n + 1 =>
      simp only [List.take_succ_cons, List.mem_cons] at hb
      rcases hb with hb | hb
      · subst hb
        have := Nat.mod_lt v (y := 128) (by omega)
        omega
      · simp only [List.length_cons] at hn
        exact ih (v / 128) (Nat.div_lt_self (by omega) (by omega)) n (by omega) b hb

/-- Round trip for non-negative i32 values: reading back the written digits
restores the value and consumes exactly the digits. -/
theorem read_write_varint (v : Nat) (hv : v < 2 ^ 31) (rest : List Nat) :
    read_varint (varintBytes v ++ rest) = .ok ((v : Int), rest) := by
  have hlen : (varintBytes v).length ≤ 5 :=
    varintBytes_length_le 5 v (by omega)
      (by calc v < 2 ^ 31 := hv
        _ < 128 ^ 5 := by norm_num)
  have hv0 : v * 2 ^ (7 * 0) + 0 = v := by norm_num
  have h := read_varint_loop_spec v 0 0 rest (by omega) (by norm_num) (by rw [hv0]; omega)
  rw [read_varint, h, hv0]
  have ht : toI32 v = (v : Int) := by rw [toI32, if_pos hv]
  rw [ht]

/-- C1: the spec claims `encode(-1)` is five bytes and round-trips, but
`write_varint` uses an arithmetic right shift (`value >>= 7` on `i32`), under
which -1 shifts to -1 forever: the loop never terminates, whatever the fuel,
so the encoding of -1 (indeed of any negative i32) does not exist. -/
theorem write_varint_neg_one_diverges : ∀ fuel : Nat, write_varint_loop fuel (-1) = none := by
  intro fuel
  induction fuel with
  | zero => rfl
  | succ fuel ih =>
    show (if ((-1 : Int) / 128) = 0 then some [(((-1 : Int) % 128)).toNat]
      else (write_varint_loop fuel ((-1 : Int) / 128)).map
        (fun bytes => ((((-1 : Int) % 128)).toNat ||| 128) :: bytes)) = none
    have hq : (-1 : Int) / 128 = -1 := by decide
    rw [hq, if_neg (by decide), ih]
    rfl

theorem toPat64_ofNat (n : Nat) (h : n < 2 ^ 64) : toPat 64 (n : Int) = n := by
  rw [toPat]
  have h1 : (n : Int) % 2 ^ 64 = (n : Int) :=
    Int.emod_eq_of_lt (by positivity) (by exact_mod_cast h)
  rw [h1, Int.toNat_ofNat]

theorem asI32_ofNat (n : Nat) (h : n < 2 ^ 31) : asI32 (n : Int) = (n : Int) := by
  rw [asI32, toPat]
  have h1 : (n : Int) % 2 ^ 32 = (n : Int) :=
    Int.emod_eq_of_lt (by positivity) (by exact_mod_cast (by omega : n < 2 ^ 32))
  rw [h1, Int.toNat_ofNat, toI32, if_pos h]

/-- PacketFrame from protocol/types.rs: packet id plus payload bytes. -/
structure PacketFrame where
  id : Int
  data : List Nat
  deriving DecidableEq

/-- PacketFrame::encode: a varint length prefix covering the id varint and the
payload (`data_len as i32`), then the id varint, then the payload.  `none`
when one of the varint loops does not terminate (negative id). -/
def PacketFrame.encode (f : PacketFrame) : Option (List Nat) :=
  match varint_len f.id with
  | none => none
  | some idLen =>
    let dataLen := idLen + f.data.length
    match write_varint (asI32 (dataLen : Int)), write_varint f.id with
    | some lenBytes, some idBytes => some (lenBytes ++ idBytes ++ f.data)
    | _, _ => none

/-- PacketFrame::decode: `ok none` is "need more data" (the Rust code returns
`Ok(None)` leaving the buffer untouched; note a varint ERROR in the length
prefix is also mapped to `Ok(None)`).  On success the decoded frame and the
buffer remainder after `split_to(total_len)` are returned.  The cursor
position is the length difference of the unconsumed list. -/
def PacketFrame.decode (buf : List Nat) : Except ProtocolError (Option (PacketFrame × List Nat)) :=
  match read_varint buf with
  | .error _ => .ok none
  | .ok (packetLen, afterLen) =>
    let packetLenU := toPat 64 packetLen
    let headerLen := buf.length - afterLen.length
    let totalLen := headerLen + packetLenU
    if buf.length < totalLen then .ok none
    else
      match read_varint afterLen with
      | .error e => .error e
      | .ok (packetId, afterId) =>
        let dataStart := buf.length - afterId.length
        let data := (buf.take totalLen).drop dataStart
        .ok (some ({ id := packetId, data := data }, buf.drop totalLen))

theorem encode_eq (id : Nat) (data : List Nat) (hid : id < 2 ^ 31) (hd : data.length ≤ 2 ^ 20) :
    PacketFrame.encode ⟨(id : Int), data⟩
      = some (varintBytes ((varintBytes id).length + data.length)
          ++ varintBytes id ++ data) := by
  have hidlen : (varintBytes id).length ≤ 5 :=
    varintBytes_length_le 5 id (by omega)
      (by calc id < 2 ^ 31 := hid
        _ < 128 ^ 5 := by norm_num)
  have hdl : (varintBytes id).length + data.length < 2 ^ 31 := by omega
  have hdllen : (varintBytes ((varintBytes id).length + data.length)).length ≤ 5 :=
    varintBytes_length_le 5 _ (by omega)
      (by calc (varintBytes id).length + data.length < 2 ^ 31 := hdl
        _ < 128 ^ 5 := by norm_num)
  rw [PacketFrame.encode]
  simp only
  rw [show varint_len (id : Int) = some (varintBytes id).length from
    varint_len_loop_nonneg 5 id hidlen]
  simp only
  rw [asI32_ofNat _ hdl,
    show write_varint (((varintBytes id).length + data.length : Nat) : Int)
      = some (varintBytes ((varintBytes id).length + data.length)) from
      write_varint_loop_nonneg 5 _ hdllen,
    show write_varint (id : Int) = some (varintBytes id) from
      write_varint_loop_nonneg 5 id hidlen]

/-- C6: for every id in [0, 2^28] and payload of at most 2^20 bytes, the frame
encodes, decoding the encoding (plus any trailing bytes) returns exactly the
same id and payload with the trailing bytes left in the buffer, and decoding
any strict prefix of the encoding reports "need more" (ok none), consuming
nothing. -/
theorem packet_frame_round_trip (id : Nat) (data rest : List Nat)
    (hid : id ≤ 2 ^ 28) (hd : data.length ≤ 2 ^ 20) :
    ∃ bytes, PacketFrame.encode ⟨(id : Int), data⟩ = some bytes ∧
      PacketFrame.decode (bytes ++ rest) = .ok (some (⟨(id : Int), data⟩, rest)) ∧
      ∀ n, n < bytes.length → PacketFrame.decode (bytes.take n) = .ok none := by
  have hid31 : id < 2 ^ 31 := by omega
  set dl := (varintBytes id).length + data.length with hdl_def
  have hidlen : (varintBytes id).length ≤ 5 :=
    varintBytes_length_le 5 id (by omega)
      (by calc id < 2 ^ 31 := hid31
        _ < 128 ^ 5 := by norm_num)
  have hdl31 : dl < 2 ^ 31 := by omega
  refine ⟨varintBytes dl ++ varintBytes id ++ data, encode_eq id data hid31 hd, ?_, ?_⟩
  · rw [PacketFrame.decode]
    have hshape : (varintBytes dl ++ varintBytes id ++ data) ++ rest
        = varintBytes dl ++ (varintBytes id ++ (data ++ rest)) := by
      simp [List.append_assoc]
    rw [hshape, read_write_varint dl hdl31 (varintBytes id ++ (data ++ rest))]
    simp only
    rw [toPat64_ofNat dl (by omega)]
    have hlen1 : (varintBytes dl ++ (varintBytes id ++ (data ++ rest))).length
        - (varintBytes id ++ (data ++ rest)).length = (varintBytes dl).length := by
      simp [List.length_append]
    rw [hlen1]
    have hnotlt : ¬ ((varintBytes dl ++ (varintBytes id ++ (data ++ rest))).length
        < (varintBytes dl).length + dl) := by
      simp only [List.length_append]
      omega
    rw [if_neg hnotlt, read_write_varint id hid31 (data ++ rest)]
    simp only
    have hlen2 : (varintBytes dl ++ (varintBytes id ++ (data ++ rest))).length
        - (data ++ rest).length = (varintBytes dl).length + (varintBytes id).length := by
      simp only [List.length_append]
      omega
    rw [hlen2]
    have htake : (varintBytes dl ++ (varintBytes id ++ (data ++ rest))).take
        ((varintBytes dl).length + dl)
        = varintBytes dl ++ varintBytes id ++ data := by
      rw [← hshape]
      have : (varintBytes dl).length + dl
          = (varintBytes dl ++ varintBytes id ++ data).length := by
        simp [List.length_append]
      rw [this, List.take_left]
    have hdrop : (varintBytes dl ++ (varintBytes id ++ (data ++ rest))).drop
        ((varintBytes dl).length + dl) = rest := by
      rw [← hshape]
      have : (varintBytes dl).length + dl
          = (varintBytes dl ++ varintBytes id ++ data).length := by
        simp [List.length_append]
      rw [this, List.drop_left]
    rw [htake, hdrop]
    have hdata : (varintBytes dl ++ varintBytes id ++ data).drop
        ((varintBytes dl).length + (varintBytes id).length) = data := by
      rw [List.append_assoc]
      have h1 : (varintBytes dl).length + (varintBytes id).length
          = (varintBytes dl ++ varintBytes id).length := by simp [List.length_append]
      rw [← List.append_assoc, show varintBytes dl ++ varintBytes id ++ data
        = (varintBytes dl ++ varintBytes id) ++ data from rfl, h1, List.drop_left]
    rw [hdata]
  · intro n hn
    simp only [List.length_append] at hn
    by_cases hnl : n < (varintBytes dl).length
    · have htn : (varintBytes dl ++ varintBytes id ++ data).take n
          = (varintBytes dl).take n := by
        rw [List.append_assoc, List.take_append_eq_append_take,
          show n - (varintBytes dl).length = 0 by omega]
        simp
      rw [htn, PacketFrame.decode,
        read_varint, read_varint_loop_all_cont _ ?_ 0 0]
      intro b hb
      have := varintBytes_take_cont dl n hnl b hb
      rw [and128_of_ge b this.1 this.2]
      omega
    · have hrest : n - (varintBytes dl).length ≤ (varintBytes id ++ data).length := by
        simp only [List.length_append]
        omega
      have htn : (varintBytes dl ++ varintBytes id ++ data).take n
          = varintBytes dl ++ (varintBytes id ++ data).take (n - (varintBytes dl).length) := by
        rw [List.append_assoc, List.take_append_eq_append_take,
          List.take_of_length_le (by omega)]
      rw [htn, PacketFrame.decode,
        read_write_varint dl hdl31 ((varintBytes id ++ data).take (n - (varintBytes dl).length))]
      simp only
      rw [toPat64_ofNat dl (by omega)]
      have hmidlen : ((varintBytes id ++ data).take (n - (varintBytes dl).length)).length
          = n - (varintBytes dl).length := by
        simp only [List.length_take]
        omega
      have hltt : (varintBytes dl ++ (varintBytes id ++ data).take
          (n - (varintBytes dl).length)).length
          - ((varintBytes id ++ data).take (n - (varintBytes dl).length)).length
          = (varintBytes dl).length := by
        simp [List.length_append]
      rw [hltt, if_pos ?_]
      simp only [List.length_append, hmidlen, List.length_append] at *
      omega

/-- C6 witness at id 1 and payload [7, 8] with trailing buffer [9]. -/
theorem packet_frame_round_trip_witness :
    ∃ bytes, PacketFrame.encode ⟨((1 : Nat) : Int), [7, 8]⟩ = some bytes ∧
      PacketFrame.decode (bytes ++ [9]) = .ok (some (⟨((1 : Nat) : Int), [7, 8]⟩, [9])) ∧
      ∀ n, n < bytes.length → PacketFrame.decode (bytes.take n) = .ok none :=
  packet_frame_round_trip 1 [7, 8] [9] (by norm_num) (by norm_num)

/-- C8 counterexample: a six-byte all-continuation length prefix is an invalid
varint, yet PacketFrame::decode reports "need more data" (ok none) instead of
a framing error: the connection keeps waiting instead of closing. -/
theorem oversized_varint_len_need_more :
    PacketFrame.decode [128, 128, 128, 128, 128, 128] = .ok none := by rfl

/-- C8 amended: any error from the length varint (including the more-than-five
byte case) is swallowed by PacketFrame::decode into "need more data" (Ok(None)),
so the connection waits for further input rather than closing; it closes only
when end-of-stream arrives with a non-empty buffer. -/
theorem frame_decode_swallows_varint_error (buf : List Nat) (e : ProtocolError)
    (h : read_varint buf = .error e) :
    PacketFrame.decode buf = .ok none := by
  rw [PacketFrame.decode, h]

/-- C8 witness: the amended behaviour at the concrete six-continuation-byte buffer. -/
theorem frame_decode_swallows_varint_error_witness :
    PacketFrame.decode [128, 128, 128, 128, 128, 129] = .ok none :=
  frame_decode_swallows_varint_error _ ProtocolError.invalidPacket (by rfl)

/-- The packed value built by `MCWriteExt::write_position` (protocol/types.rs):
`((x as i64 & 0x3FFFFFF) << 38) | ((z as i64 & 0x3FFFFFF) << 12) | (y as i64 & 0xFFF)`,
kept as the u64 bit pattern of the i64 that `put_i64` then writes. -/
def write_position_val (x y z : Int) : Nat :=
  (((toPat 64 x &&& 0x3FFFFFF) <<< 38) % 2 ^ 64) |||
  (((toPat 64 z &&& 0x3FFFFFF) <<< 12) % 2 ^ 64) |||
  (toPat 64 y &&& 0xFFF)

/-- Big-endian byte list of a u64 pattern, as emitted by `put_i64`. -/
def put_u64_be (p : Nat) : List Nat :=
  [p >>> 56 &&& 255, p >>> 48 &&& 255, p >>> 40 &&& 255, p >>> 32 &&& 255,
   p >>> 24 &&& 255, p >>> 16 &&& 255, p >>> 8 &&& 255, p &&& 255]

/-- MCWriteExt::write_position: the packed position as the eight bytes put on the wire. -/
def write_position (x y z : Int) : List Nat := put_u64_be (write_position_val x y z)

/-- Big-endian accumulation of a byte list into a Nat. -/
def beNat (bytes : List Nat) : Nat := bytes.foldl (fun acc b => acc * 256 + b) 0

/-- Buf::get_i64: reads eight big-endian bytes as an i64.  The Rust method
panics when fewer than eight bytes remain; the panic tears down the connection
task, modelled as a protocol error. -/
def get_i64 (buf : List Nat) : Except ProtocolError (Int × List Nat) :=
  if buf.length < 8 then .error .invalidPacket
  else .ok (toI64 (beNat (buf.take 8)), buf.drop 8)

/-- Field extraction of `MCReadExt::read_position` from the i64 value `val`:
`x = (val >> 38) as i32`, `y = (val << 52 >> 52) as i32`, `z = (val << 26 >> 38) as i32`.
On i64, `<< k` multiplies and wraps to 64 bits (hence `toPat 64 (val * 2 ^ k)`)
and `>> k` is the arithmetic shift, i.e. floor division by `2 ^ k`. -/
def read_position_val (val : Int) : Int × Int × Int :=
  let x := asI32 (val >>> (38 : Nat))
  let y := asI32 (toI64 (toPat 64 (val * 2 ^ 52)) >>> (52 : Nat))
  let z := asI32 (toI64 (toPat 64 (val * 2 ^ 26)) >>> (38 : Nat))
  (x, y, z)

/-- MCReadExt::read_position: `get_i64` then field extraction. -/
def read_position (buf : List Nat) : Except ProtocolError ((Int × Int × Int) × List Nat) :=
  match get_i64 buf with
  | .error e => .error e
  | .ok (val, rest) => .ok (read_position_val val, rest)

theorem asI32_small (q : Int) (h1 : -2 ^ 31 ≤ q) (h2 : q < 2 ^ 31) : asI32 q = q := by
  rw [asI32, toPat, toI32]
  split <;> omega

theorem write_position_val_lt (x y z : Int) : write_position_val x y z < 2 ^ 64 := by
  rw [write_position_val]
  apply Nat.or_lt_two_pow
  · apply Nat.or_lt_two_pow
    · exact Nat.mod_lt _ (by norm_num)
    · exact Nat.mod_lt _ (by norm_num)
  · calc toPat 64 y &&& 0xFFF ≤ 0xFFF := Nat.and_le_right
      _ < 2 ^ 64 := by norm_num

theorem beNat_put_u64_be (p : Nat) (h : p < 2 ^ 64) : beNat (put_u64_be p) = p := by
  have h255 : ∀ a : Nat, a &&& 255 = a % 256 := fun a => by
    have := Nat.and_pow_two_sub_one_eq_mod a 8
    norm_num at this
    exact this
  rw [put_u64_be, beNat]
  simp only [List.foldl, Nat.shiftRight_eq_div_pow, h255]
  omega

theorem get_i64_put (p : Nat) (hp : p < 2 ^ 64) (rest : List Nat) :
    get_i64 (put_u64_be p ++ rest) = .ok (toI64 p, rest) := by
  rw [get_i64]
  have hlen : (put_u64_be p).length = 8 := by rw [put_u64_be]; rfl
  rw [if_neg (by simp [List.length_append, hlen])]
  have ht : (put_u64_be p ++ rest).take 8 = put_u64_be p := by
    rw [show (8 : Nat) = (put_u64_be p).length from hlen.symm, List.take_left]
  have hd : (put_u64_be p ++ rest).drop 8 = rest := by
    rw [show (8 : Nat) = (put_u64_be p).length from hlen.symm, List.drop_left]
  rw [ht, hd, beNat_put_u64_be p hp]

/-- Field-level round trip: extracting the fields of the packed value restores
the coordinates whenever they fit the 26/26/12-bit signed field widths. -/
theorem read_write_position_val (x y z : Int)
    (hx1 : -2 ^ 25 ≤ x) (hx2 : x < 2 ^ 25) (hz1 : -2 ^ 25 ≤ z) (hz2 : z < 2 ^ 25)
    (hy1 : -2 ^ 11 ≤ y) (hy2 : y < 2 ^ 11) :
    read_position_val (toI64 (write_position_val x y z)) = (x, y, z) := by
  have hmx : toPat 64 x &&& 0x3FFFFFF = (x % 2 ^ 26).toNat := by
    rw [toPat]
    have h := Nat.and_pow_two_sub_one_eq_mod ((x % 2 ^ 64).toNat) 26
    norm_num at h ⊢
    omega
  have hmz : toPat 64 z &&& 0x3FFFFFF = (z % 2 ^ 26).toNat := by
    rw [toPat]
    have h := Nat.and_pow_two_sub_one_eq_mod ((z % 2 ^ 64).toNat) 26
    norm_num at h ⊢
    omega
  have hmy : toPat 64 y &&& 0xFFF = (y % 2 ^ 12).toNat := by
    rw [toPat]
    have h := Nat.and_pow_two_sub_one_eq_mod ((y % 2 ^ 64).toNat) 12
    norm_num at h ⊢
    omega
  set X := (x % 2 ^ 26).toNat with hXdef
  set Z := (z % 2 ^ 26).toNat with hZdef
  set Y := (y % 2 ^ 12).toNat with hYdef
  have hXc : (X : Int) = x % 2 ^ 26 := by omega
  have hZc : (Z : Int) = z % 2 ^ 26 := by omega
  have hYc : (Y : Int) = y % 2 ^ 12 := by omega
  have hXb : X < 2 ^ 26 := by omega
  have hZb : Z < 2 ^ 26 := by omega
  have hYb : Y < 2 ^ 12 := by omega
  have hval : write_position_val x y z = X * 2 ^ 38 + Z * 2 ^ 12 + Y := by
    rw [write_position_val, hmx, hmz, hmy, Nat.shiftLeft_eq, Nat.shiftLeft_eq,
      Nat.mod_eq_of_lt (show X * 2 ^ 38 < 2 ^ 64 by omega),
      Nat.mod_eq_of_lt (show Z * 2 ^ 12 < 2 ^ 64 by omega)]
    have h1 : X * 2 ^ 38 ||| Z * 2 ^ 12 = X * 2 ^ 38 + Z * 2 ^ 12 := by
      rw [Nat.lor_comm]
      exact lor_small_mul (Z * 2 ^ 12) X 38 (by omega)
    have h2 : (X * 2 ^ 38 + Z * 2 ^ 12) ||| Y = X * 2 ^ 38 + Z * 2 ^ 12 + Y := by
      rw [show X * 2 ^ 38 + Z * 2 ^ 12 = (X * 2 ^ 26 + Z) * 2 ^ 12 by ring, Nat.lor_comm,
        lor_small_mul Y (X * 2 ^ 26 + Z) 12 hYb]
    rw [h1, h2]
  rw [hval, read_position_val]
  simp only [Prod.mk.injEq]
  refine ⟨?_, ?_, ?_⟩
  · rw [Int.shiftRight_eq_div_pow, toI64]
    split
    · have hq : ((X * 2 ^ 38 + Z * 2 ^ 12 + Y : Nat) : Int) / ((2 ^ 38 : Nat) : Int) = x := by
        push_cast
        omega
      rw [hq]
      exact asI32_small x (by omega) (by omega)
    · have hq : (((X * 2 ^ 38 + Z * 2 ^ 12 + Y : Nat) : Int) - 2 ^ 64) / ((2 ^ 38 : Nat) : Int)
          = x := by
        push_cast
        omega
      rw [hq]
      exact asI32_small x (by omega) (by omega)
  · have hpat : toPat 64 (toI64 (X * 2 ^ 38 + Z * 2 ^ 12 + Y) * 2 ^ 52) = Y * 2 ^ 52 := by
      rw [toI64, toPat]
      split <;> omega
    rw [hpat, toI64, Int.shiftRight_eq_div_pow]
    split
    · have hq : ((Y * 2 ^ 52 : Nat) : Int) / ((2 ^ 52 : Nat) : Int) = y := by
        push_cast
        omega
      rw [hq]
      exact asI32_small y (by omega) (by omega)
    · have hq : (((Y * 2 ^ 52 : Nat) : Int) - 2 ^ 64) / ((2 ^ 52 : Nat) : Int) = y := by
        push_cast
        omega
      rw [hq]
      exact asI32_small y (by omega) (by omega)
  · have hpat : toPat 64 (toI64 (X * 2 ^ 38 + Z * 2 ^ 12 + Y) * 2 ^ 26)
        = (Z * 2 ^ 12 + Y) * 2 ^ 26 := by
      rw [toI64, toPat]
      split <;> omega
    rw [hpat, toI64, Int.shiftRight_eq_div_pow]
    split
    · have hq : (((Z * 2 ^ 12 + Y) * 2 ^ 26 : Nat) : Int) / ((2 ^ 38 : Nat) : Int) = z := by
        push_cast
        omega
      rw [hq]
      exact asI32_small z (by omega) (by omega)
    · have hq : ((((Z * 2 ^ 12 + Y) * 2 ^ 26 : Nat) : Int) - 2 ^ 64) / ((2 ^ 38 : Nat) : Int)
          = z := by
        push_cast
        omega
      rw [hq]
      exact asI32_small z (by omega) (by omega)

/-- C7: packed block position round trip.  For x and z in [-2^25, 2^25) and y in
[-2^11, 2^11), reading back a written packed position from the wire restores
exactly (x, y, z): the writer masks each component to its field width and the
reader sign-extends x from bits 38..63, z from bits 12..37 and y from bits 0..11. -/
theorem position_round_trip (x y z : Int) (rest : List Nat)
    (hx1 : -2 ^ 25 ≤ x) (hx2 : x < 2 ^ 25) (hz1 : -2 ^ 25 ≤ z) (hz2 : z < 2 ^ 25)
    (hy1 : -2 ^ 11 ≤ y) (hy2 : y < 2 ^ 11) :
    read_position (write_position x y z ++ rest) = .ok ((x, y, z), rest) := by
  rw [write_position, read_position, get_i64_put _ (write_position_val_lt x y z) rest]
  show Except.ok (read_position_val (toI64 (write_position_val x y z)), rest) = _
  rw [read_write_position_val x y z hx1 hx2 hz1 hz2 hy1 hy2]

/-- C7 witness at the concrete position (-5, -1, 7) with a trailing byte. -/
theorem position_round_trip_witness :
    read_position (write_position (-5) (-1) 7 ++ [3]) = .ok (((-5 : Int), (-1 : Int), (7 : Int)), [3]) :=
  position_round_trip (-5) (-1) 7 [3] (by norm_num) (by norm_num) (by norm_num)
    (by norm_num) (by norm_num) (by norm_num)

def CHUNK_WIDTH : Nat := 16

def CHUNK_HEIGHT : Nat := 384

def SECTION_HEIGHT : Nat := 16

def SECTIONS_PER_CHUNK : Nat := CHUNK_HEIGHT / SECTION_HEIGHT

/-- ChunkPosition from world/chunk.rs. -/
structure ChunkPosition where
  x : Int
  z : Int
  deriving DecidableEq

/-- ChunkSection from world/chunk.rs.  The `blocks` Vec (length 16·16·16) is a
total function from the flat index `y*CHUNK_WIDTH*CHUNK_WIDTH + z*CHUNK_WIDTH + x`
used by the source; the light arrays are touched by no claim and are omitted. -/
structure ChunkSection where
  blocks : Nat → Nat

def ChunkSection.new : ChunkSection := ⟨fun _ => 0⟩

def ChunkSection.get_block (s : ChunkSection) (x y z : Nat) : Nat :=
  s.blocks (y * CHUNK_WIDTH * CHUNK_WIDTH + z * CHUNK_WIDTH + x)

def ChunkSection.set_block (s : ChunkSection) (x y z blockId : Nat) : ChunkSection :=
  ⟨fun index => if index = y * CHUNK_WIDTH * CHUNK_WIDTH + z * CHUNK_WIDTH + x
    then blockId else s.blocks index⟩

/-- Chunk from world/chunk.rs: a Vec of SECTIONS_PER_CHUNK sections, a 16×16
heightmap and a 16×16 biome map, each Vec modelled as a total function. -/
structure Chunk where
  position : ChunkPosition
  sections : Nat → ChunkSection
  heightmap : Nat → Int
  biomes : Nat → Int

/-- Chunk::new: empty sections, zero heightmap, biomes all 1. -/
def Chunk.new (position : ChunkPosition) : Chunk :=
  { position := position
    sections := fun _ => ChunkSection.new
    heightmap := fun _ => 0
    biomes := fun _ => 1 }

def Chunk.get_block (c : Chunk) (x y z : Nat) : Nat :=
  let sectionIndex := y / SECTION_HEIGHT
  let sectionY := y % SECTION_HEIGHT
  if SECTIONS_PER_CHUNK ≤ sectionIndex then 0
  else (c.sections sectionIndex).get_block x sectionY z

/-- Chunk::set_block: writes the cell and raises (never lowers) the heightmap
entry of the column when a non-zero block lands above the current entry. -/
def Chunk.set_block (c : Chunk) (x y z blockId : Nat) : Chunk :=
  let sectionIndex := y / SECTION_HEIGHT
  let sectionY := y % SECTION_HEIGHT
  if SECTIONS_PER_CHUNK ≤ sectionIndex then c
  else
    let c' := { c with sections := (fun i =>
      if i = sectionIndex then (c.sections sectionIndex).set_block x sectionY z blockId
      else c.sections i) }
    let heightmapIndex := z * CHUNK_WIDTH + x
    if blockId ≠ 0 ∧ c'.heightmap heightmapIndex < (y : Int) then
      { c' with heightmap := (fun i =>
        if i = heightmapIndex then (y : Int) else c'.heightmap i) }
    else c'

/-- Chunk::generate_flat: bedrock at y 0, dirt for 1 ≤ y < height-1, grass at
height-1 (when height > 1), heightmap column set to `height`.  Rust's
`height.saturating_sub(1)` is Nat subtraction. -/
def Chunk.generate_flat (c : Chunk) (height : Nat) : Chunk :=
  (List.range CHUNK_WIDTH).foldl (fun c x =>
    (List.range CHUNK_WIDTH).foldl (fun c z =>
      let c := c.set_block x 0 z 7
      let c := (List.range' 1 (height - 1 - 1)).foldl (fun c y => c.set_block x y z 3) c
      let c := if 1 < height then c.set_block x (height - 1) z 2 else c
      { c with heightmap := (fun i =>
        if i = z * CHUNK_WIDTH + x then (height : Int) else c.heightmap i) }) c) c

/-- Characterization of reads after a write: the written cell holds the new id,
everything else is unchanged (out-of-range y makes the write a no-op). -/
theorem get_set_block (c : Chunk) (x y z blockId x' y' z' : Nat) :
    (c.set_block x y z blockId).get_block x' y' z'
      = if y < 384 ∧ y' / 16 = y / 16 ∧
          y' % 16 * 16 * 16 + z' * 16 + x' = y % 16 * 16 * 16 + z * 16 + x
        then blockId else c.get_block x' y' z' := by
  by_cases h1 : (24 : Nat) ≤ y / 16
  · have e1 : Chunk.set_block c x y z blockId = c := by
      simp only [Chunk.set_block, SECTIONS_PER_CHUNK, CHUNK_HEIGHT, SECTION_HEIGHT]
      rw [if_pos (by norm_num; omega)]
    rw [e1, if_neg (by omega)]
  · have hsec_eq : (Chunk.set_block c x y z blockId).sections = fun i =>
        if i = y / 16 then (c.sections (y / 16)).set_block x (y % 16) z blockId
        else c.sections i := by
      simp only [Chunk.set_block, SECTIONS_PER_CHUNK, CHUNK_HEIGHT, SECTION_HEIGHT]
      rw [if_neg (by norm_num; omega)]
      split_ifs <;> rfl
    simp only [Chunk.get_block, SECTIONS_PER_CHUNK, CHUNK_HEIGHT, SECTION_HEIGHT, CHUNK_WIDTH,
      hsec_eq, ChunkSection.set_block, ChunkSection.get_block]
    norm_num
    by_cases h2 : (24 : Nat) ≤ y' / 16
    · rw [if_pos h2, if_pos h2, if_neg (by omega)]
    · rw [if_neg h2, if_neg h2]
      by_cases h3 : y' / 16 = y / 16
      · rw [if_pos h3]
        change (if y' % 16 * 16 * 16 + z' * 16 + x' = y % 16 * 16 * 16 + z * 16 + x
          then blockId
          else (c.sections (y / 16)).blocks (y' % 16 * 16 * 16 + z' * 16 + x')) = _
        by_cases h4 : y' % 16 * 16 * 16 + z' * 16 + x' = y % 16 * 16 * 16 + z * 16 + x
        · rw [if_pos h4, if_pos (by omega)]
        · rw [if_neg h4, if_neg (by omega), h3]
      · rw [if_neg h3, if_neg (by omega)]

/-- Characterization of the heightmap after a write: raised to y on the written
column when the block is non-zero and lands strictly above, otherwise unchanged. -/
theorem heightmap_set_block (c : Chunk) (x y z blockId : Nat) :
    (c.set_block x y z blockId).heightmap = fun i =>
      if y < 384 ∧ blockId ≠ 0 ∧ c.heightmap (z * 16 + x) < (y : Int) ∧ i = z * 16 + x
      then (y : Int) else c.heightmap i := by
  funext i
  by_cases h1 : (24 : Nat) ≤ y / 16
  · have e1 : Chunk.set_block c x y z blockId = c := by
      simp only [Chunk.set_block, SECTIONS_PER_CHUNK, CHUNK_HEIGHT, SECTION_HEIGHT]
      rw [if_pos (by norm_num; omega)]
    rw [e1, if_neg (by omega)]
  · simp only [Chunk.set_block, SECTIONS_PER_CHUNK, CHUNK_HEIGHT, SECTION_HEIGHT, CHUNK_WIDTH]
    rw [if_neg (by norm_num; omega)]
    by_cases h2 : blockId ≠ 0 ∧ c.heightmap (z * 16 + x) < (y : Int)
    · rw [if_pos h2]
      by_cases h3 : i = z * 16 + x
      · simp only [if_pos h3]
        rw [if_pos ⟨by omega, h2.1, h2.2, h3⟩]
      · simp only [if_neg h3]
        rw [if_neg (by tauto)]
    · rw [if_neg h2, if_neg (by tauto)]

/-- Writes never touch the biome map. -/
theorem biomes_set_block (c : Chunk) (x y z blockId : Nat) :
    (c.set_block x y z blockId).biomes = c.biomes := by
  simp only [Chunk.set_block]
  split_ifs <;> rfl

/-- The heightmap never decreases under a write. -/
theorem heightmap_set_block_mono (c : Chunk) (x y z blockId : Nat) (i : Nat) :
    c.heightmap i ≤ (c.set_block x y z blockId).heightmap i := by
  simp only [heightmap_set_block]
  split_ifs with h
  · rcases h with ⟨-, -, hlt, hi⟩
    rw [hi]
    omega
  · exact le_refl _

/-- C10: frame property of Chunk::set_block.  For in-range coordinates, the
write changes at most the one cell and the heightmap entry of its column:
every other cell, every other column's heightmap entry, and the whole biome
map read unchanged. -/
theorem set_block_frame_property (c : Chunk) (x y z blockId x' y' z' : Nat)
    (hx : x < 16) (hz : z < 16) (hy : y < 384)
    (hx' : x' < 16) (hz' : z' < 16) (hy' : y' < 384) :
    ((x', y', z') ≠ (x, y, z) →
      (c.set_block x y z blockId).get_block x' y' z' = c.get_block x' y' z') ∧
    ((x', z') ≠ (x, z) →
      (c.set_block x y z blockId).heightmap (z' * 16 + x') = c.heightmap (z' * 16 + x')) ∧
    (c.set_block x y z blockId).biomes = c.biomes := by
  refine ⟨?_, ?_, biomes_set_block c x y z blockId⟩
  · intro hne
    rw [get_set_block, if_neg ?_]
    intro hc
    apply hne
    have : x' = x ∧ y' = y ∧ z' = z := by omega
    simp [this.1, this.2.1, this.2.2]
  · intro hne
    simp only [heightmap_set_block]
    rw [if_neg ?_]
    intro hc
    apply hne
    have : x' = x ∧ z' = z := by omega
    simp [this.1, this.2]

/-- C10 witness: a concrete write at (1,2,3) leaves cell (4,5,6), the heightmap
column (4,6) and the biomes unchanged. -/
theorem set_block_frame_property_witness :
    ((Chunk.new ⟨0, 0⟩).set_block 1 2 3 9).get_block 4 5 6
        = (Chunk.new ⟨0, 0⟩).get_block 4 5 6 ∧
    ((Chunk.new ⟨0, 0⟩).set_block 1 2 3 9).heightmap (6 * 16 + 4)
        = (Chunk.new ⟨0, 0⟩).heightmap (6 * 16 + 4) ∧
    ((Chunk.new ⟨0, 0⟩).set_block 1 2 3 9).biomes = (Chunk.new ⟨0, 0⟩).biomes := by
  have h := set_block_frame_property (Chunk.new ⟨0, 0⟩) 1 2 3 9 4 5 6
    (by norm_num) (by norm_num) (by norm_num) (by norm_num) (by norm_num) (by norm_num)
  exact ⟨h.1 (by decide), h.2.1 (by decide), h.2.2⟩

/-- A sequence of Chunk::set_block operations (x, y, z, blockId) applied to a
fresh chunk, in order. -/
def Chunk.apply_ops (ops : List (Nat × Nat × Nat × Nat)) : Chunk :=
  ops.foldl (fun c op => c.set_block op.1 op.2.1 op.2.2.1 op.2.2.2) (Chunk.new ⟨0, 0⟩)

/-- The heightmap bounds every non-zero block from above. -/
def heightmapUB (c : Chunk) : Prop :=
  ∀ x z y : Nat, x < 16 → z < 16 → y < 384 →
    c.get_block x y z ≠ 0 → (y : Int) ≤ c.heightmap (z * 16 + x)

theorem heightmapUB_new (pos : ChunkPosition) : heightmapUB (Chunk.new pos) := by
  intro x z y _ _ _ hget
  exfalso
  apply hget
  simp [Chunk.new, Chunk.get_block, ChunkSection.new, ChunkSection.get_block]

theorem heightmapUB_set_block (c : Chunk) (hc : heightmapUB c) (a b d blockId : Nat)
    (ha : a < 16) (hd : d < 16) : heightmapUB (c.set_block a b d blockId) := by
  intro x z y hx hz hy hget
  rw [get_set_block] at hget
  by_cases hcond : b < 384 ∧ y / 16 = b / 16 ∧
      y % 16 * 16 * 16 + z * 16 + x = b % 16 * 16 * 16 + d * 16 + a
  · rw [if_pos hcond] at hget
    have hxyz : x = a ∧ y = b ∧ z = d := by omega
    rcases hxyz with ⟨hxa, hyb, hzd⟩
    subst hxa; subst hyb; subst hzd
    simp only [heightmap_set_block]
    by_cases hraise : c.heightmap (z * 16 + x) < (y : Int)
    · split_ifs with hsp
      · exact le_refl _
      · exact absurd ⟨by omega, hget, hraise, trivial⟩ hsp
    · rw [if_neg (by tauto)]
      omega
  · rw [if_neg hcond] at hget
    exact le_trans (hc x z y hx hz hy hget) (heightmap_set_block_mono c a b d blockId _)

/-- C2 counterexample: place block id 1 at (0,5,0), then overwrite it with 0.
The column is now entirely air, yet the heightmap entry for (0,0) is still 5,
not 0 as the claimed invariant requires: Chunk::set_block never lowers the
heightmap. -/
theorem heightmap_claim_counterexample :
    (∀ y : Nat, y < 384 →
      (((Chunk.new ⟨0, 0⟩).set_block 0 5 0 1).set_block 0 5 0 0).get_block 0 y 0 = 0) ∧
    (((Chunk.new ⟨0, 0⟩).set_block 0 5 0 1).set_block 0 5 0 0).heightmap 0 = 5 := by
  constructor
  · decide
  · decide

/-- C2 amended: after any sequence of set_block operations with in-range x and z
on a fresh chunk, the heightmap entry of each column is an UPPER BOUND on the
heights of its non-zero blocks (the heightmap is only ever raised, so clearing
the topmost block does not lower it and equality need not hold). -/
theorem heightmap_upper_bound (ops : List (Nat × Nat × Nat × Nat))
    (hops : ∀ op ∈ ops, op.1 < 16 ∧ op.2.2.1 < 16)
    (x z y : Nat) (hx : x < 16) (hz : z < 16) (hy : y < 384)
    (hget : (Chunk.apply_ops ops).get_block x y z ≠ 0) :
    (y : Int) ≤ (Chunk.apply_ops ops).heightmap (z * 16 + x) := by
  suffices h : heightmapUB (Chunk.apply_ops ops) from h x z y hx hz hy hget
  rw [Chunk.apply_ops]
  have haux : ∀ (l : List (Nat × Nat × Nat × Nat)) (c : Chunk), heightmapUB c →
      (∀ op ∈ l, op.1 < 16 ∧ op.2.2.1 < 16) →
      heightmapUB (l.foldl (fun c op => c.set_block op.1 op.2.1 op.2.2.1 op.2.2.2) c) := by
    intro l
    induction l with
    | nil => intro c hc _; exact hc
    | cons hd tl ih =>
      intro c hc hall
      rw [List.foldl_cons]
      exact ih _ (heightmapUB_set_block c hc hd.1 hd.2.1 hd.2.2.1 hd.2.2.2
        (hall hd (by simp)).1 (hall hd (by simp)).2) (fun op hop => hall op (by simp [hop]))
  exact haux ops (Chunk.new ⟨0, 0⟩) (heightmapUB_new ⟨0, 0⟩) hops

/-- C2 witness: after placing id 1 at (0,5,0), the heightmap of column (0,0)
is at least 5. -/
theorem heightmap_upper_bound_witness :
    (5 : Int) ≤ (Chunk.apply_ops [(0, 5, 0, 1)]).heightmap (0 * 16 + 0) :=
  heightmap_upper_bound [(0, 5, 0, 1)] (by decide) 0 0 5 (by decide) (by decide) (by decide)
    (by decide)

/-- Buf::get_u8: one byte off the front.  The Rust method panics when the
buffer is empty; the panic ends the connection task, modelled as an error. -/
def get_u8 : List Nat → Except ProtocolError (Nat × List Nat)
  | [] => .error .invalidPacket
  | b :: rest => .ok (b, rest)

/-- Fixed-width read of n raw bytes (copy_to_slice / get_uXX underflow panics
modelled as errors). -/
def get_bytes (n : Nat) (buf : List Nat) : Except ProtocolError (List Nat × List Nat) :=
  if buf.length < n then .error .invalidPacket
  else .ok (buf.take n, buf.drop n)

def get_u16 (buf : List Nat) : Except ProtocolError (Nat × List Nat) :=
  (get_bytes 2 buf).map (fun r => (beNat r.1, r.2))

/-- Buf::get_f32: the four big-endian bytes kept as a raw bit pattern (no
floating-point semantics are needed by any claim). -/
def get_f32 (buf : List Nat) : Except ProtocolError (Nat × List Nat) :=
  (get_bytes 4 buf).map (fun r => (beNat r.1, r.2))

/-- Buf::get_f64: the eight big-endian bytes kept as a raw bit pattern. -/
def get_f64 (buf : List Nat) : Except ProtocolError (Nat × List Nat) :=
  (get_bytes 8 buf).map (fun r => (beNat r.1, r.2))

def get_i8 (buf : List Nat) : Except ProtocolError (Int × List Nat) :=
  (get_u8 buf).map (fun r => (if r.1 < 128 then (r.1 : Int) else (r.1 : Int) - 256, r.2))

/-- MCReadExt::read_uuid: checks remaining length, then sixteen bytes as one
128-bit pattern. -/
def read_uuid (buf : List Nat) : Except ProtocolError (Nat × List Nat) :=
  if buf.length < 16 then .error .invalidPacket
  else .ok (beNat (buf.take 16), buf.drop 16)

def utf8Cont (b : Nat) : Bool := 128 ≤ b && b ≤ 191

/-- UTF-8 validity of a byte list, as checked by `String::from_utf8`. -/
def utf8Valid : List Nat → Bool
  | [] => true
  | b :: rest =>
    if b ≤ 0x7F then utf8Valid rest
    else if 0xC2 ≤ b && b ≤ 0xDF then
      match rest with
      | c :: rest2 => utf8Cont c && utf8Valid rest2
      | [] => false
    else if b = 0xE0 then
      match rest with
      | c :: d :: rest2 => (0xA0 ≤ c && c ≤ 0xBF) && utf8Cont d && utf8Valid rest2
      | _ => false
    else if b = 0xED then
      match rest with
      | c :: d :: rest2 => (0x80 ≤ c && c ≤ 0x9F) && utf8Cont d && utf8Valid rest2
      | _ => false
    else if 0xE1 ≤ b && b ≤ 0xEF then
      match rest with
      | c :: d :: rest2 => utf8Cont c && utf8Cont d && utf8Valid rest2
      | _ => false
    else if b = 0xF0 then
      match rest with
      | c :: d :: e :: rest2 => (0x90 ≤ c && c ≤ 0xBF) && utf8Cont d && utf8Cont e && utf8Valid rest2
      | _ => false
    else if 0xF1 ≤ b && b ≤ 0xF3 then
      match rest with
      | c :: d :: e :: rest2 => utf8Cont c && utf8Cont d && utf8Cont e && utf8Valid rest2
      | _ => false
    else if b = 0xF4 then
      match rest with
      | c :: d :: e :: rest2 => (0x80 ≤ c && c ≤ 0x8F) && utf8Cont d && utf8Cont e && utf8Valid rest2
      | _ => false
    else false

/-- MCReadExt::read_string: varint byte length (`as usize`), the `max_len * 4`
bound, a remaining-length check, then UTF-8 validation.  The string value is
kept as its byte list. -/
def read_string (maxLen : Nat) (buf : List Nat) : Except ProtocolError (List Nat × List Nat) :=
  match read_varint buf with
  | .error e => .error e
  | .ok (len, buf) =>
    let lenU := toPat 64 len
    if maxLen * 4 < lenU then .error .stringTooLong
    else if buf.length < lenU then .error .invalidPacket
    else if utf8Valid (buf.take lenU) then .ok (buf.take lenU, buf.drop lenU)
    else .error .invalidPacket

/-- ConnectionState from protocol/types.rs. -/
inductive ConnectionState
  | handshaking
  | status
  | login
  | play
  deriving DecidableEq

/-- ServerBoundPacket from protocol/packets.rs.  Strings are byte lists, the
uuid is a 128-bit pattern, f32/f64 fields are raw bit patterns. -/
inductive ServerBoundPacket
  | handshake (protocolVersion : Int) (serverAddress : List Nat) (serverPort : Nat)
      (nextState : Int)
  | statusRequest
  | statusPing (payload : Int)
  | loginStart (name : List Nat) (uuid : Option Nat)
  | loginEncryptionResponse (sharedSecret : List Nat) (verifyToken : List Nat)
  | loginPluginResponse (messageId : Int) (data : Option (List Nat))
  | keepAlive (id : Int)
  | chatMessage (message : List Nat)
  | playerPosition (x y z : Nat) (onGround : Bool)
  | playerRotation (yaw pitch : Nat) (onGround : Bool)
  | playerPositionAndRotation (x y z : Nat) (yaw pitch : Nat) (onGround : Bool)
  | playerDigging (status : Int) (location : Int × Int × Int) (face : Int)
  | playerBlockPlacement (location : Int × Int × Int) (face : Int) (hand : Int)
      (cursorX cursorY cursorZ : Nat) (insideBlock : Bool)
  | pluginMessage (channel : List Nat) (data : List Nat)
  deriving DecidableEq

/-- ServerBoundPacket::decode (protocol/packets.rs): per-state dispatch on the
packet id; every id without an arm falls into `_ => Err(ProtocolError::InvalidPacket)`. -/
def ServerBoundPacket.decode (state : ConnectionState) (id : Int) (data : List Nat) :
    Except ProtocolError ServerBoundPacket :=
  match state with
  | .handshaking =>
    if id = 0x00 then do
      let (protocolVersion, c) ← read_varint data
      let (serverAddress, c) ← read_string 255 c
      let (serverPort, c) ← get_u16 c
      let (nextState, _) ← read_varint c
      pure (.handshake protocolVersion serverAddress serverPort nextState)
    else .error .invalidPacket
  | .status =>
    if id = 0x00 then pure .statusRequest
    else if id = 0x01 then do
      let (payload, _) ← get_i64 data
      pure (.statusPing payload)
    else .error .invalidPacket
  | .login =>
    if id = 0x00 then do
      let (name, c) ← read_string 16 data
      if 16 ≤ c.length then do
        let (uuid, _) ← read_uuid c
        pure (.loginStart name (some uuid))
      else pure (.loginStart name none)
    else if id = 0x01 then do
      let (secretLen, c) ← read_varint data
      let (sharedSecret, c) ← get_bytes (toPat 64 secretLen) c
      let (tokenLen, c) ← read_varint c
      let (verifyToken, _) ← get_bytes (toPat 64 tokenLen) c
      pure (.loginEncryptionResponse sharedSecret verifyToken)
    else if id = 0x02 then do
      let (messageId, c) ← read_varint data
      let (successFlag, c) ← get_u8 c
      if successFlag ≠ 0 then pure (.loginPluginResponse messageId (some c))
      else pure (.loginPluginResponse messageId none)
    else .error .invalidPacket
  | .play =>
    if id = 0x0F then do
      let (kid, _) ← get_i64 data
      pure (.keepAlive kid)
    else if id = 0x05 then do
      let (message, _) ← read_string 256 data
      pure (.chatMessage message)
    else if id = 0x14 then do
      let (x, c) ← get_f64 data
      let (y, c) ← get_f64 c
      let (z, c) ← get_f64 c
      let (og, _) ← get_u8 c
      pure (.playerPosition x y z (og ≠ 0))
    else if id = 0x15 then do
      let (yaw, c) ← get_f32 data
      let (pitch, c) ← get_f32 c
      let (og, _) ← get_u8 c
      pure (.playerRotation yaw pitch (og ≠ 0))
    else if id = 0x16 then do
      let (x, c) ← get_f64 data
      let (y, c) ← get_f64 c
      let (z, c) ← get_f64 c
      let (yaw, c) ← get_f32 c
      let (pitch, c) ← get_f32 c
      let (og, _) ← get_u8 c
      pure (.playerPositionAndRotation x y z yaw pitch (og ≠ 0))
    else if id = 0x1A then do
      let (status, c) ← read_varint data
      let (location, c) ← read_position c
      let (face, _) ← get_i8 c
      pure (.playerDigging status location face)
    else if id = 0x2E then do
      let (hand, c) ← read_varint data
      let (location, c) ← read_position c
      let (face, c) ← read_varint c
      let (cursorX, c) ← get_f32 c
      let (cursorY, c) ← get_f32 c
      let (cursorZ, c) ← get_f32 c
      let (ib, _) ← get_u8 c
      pure (.playerBlockPlacement location face hand cursorX cursorY cursorZ (ib ≠ 0))
    else if id = 0x0A then do
      let (channel, c) ← read_string 256 data
      pure (.pluginMessage channel c)
    else .error .invalidPacket

/-- The packet ids that have an arm in ServerBoundPacket::decode, per state. -/
def knownServerBoundIds : ConnectionState → List Int
  | .handshaking => [0x00]
  | .status => [0x00, 0x01]
  | .login => [0x00, 0x01, 0x02]
  | .play => [0x0F, 0x05, 0x14, 0x15, 0x16, 0x1A, 0x2E, 0x0A]

/-- The connection-control effect of MinecraftServer::handle_packet
(server/mod.rs): the connection state after the arm runs and whether the read
loop continues (`Ok(true)`) or breaks cleanly (`Ok(false)`, after StatusPong). -/
def handle_packet_step (state : ConnectionState) (p : ServerBoundPacket) :
    ConnectionState × Bool :=
  match p with
  | .handshake _ _ _ nextState =>
    (if nextState = 1 then .status else if nextState = 2 then .login else state, true)
  | .statusRequest => (state, true)
  | .statusPing _ => (state, false)
  | .loginStart _ _ => (.play, true)
  | .loginEncryptionResponse _ _ => (state, true)
  | .loginPluginResponse _ _ => (state, true)
  | .keepAlive _ => (state, true)
  | .chatMessage _ => (state, true)
  | .playerPosition _ _ _ _ => (state, true)
  | .playerRotation _ _ _ => (state, true)
  | .playerPositionAndRotation _ _ _ _ _ _ => (state, true)
  | .playerDigging _ _ _ => (state, true)
  | .playerBlockPlacement _ _ _ _ _ _ _ => (state, true)
  | .pluginMessage _ _ => (state, true)

/-- One handle_connection iteration on a complete frame: read_packet runs
ServerBoundPacket::decode and propagates its error through `?`, which ends
handle_connection — the connection closes.  On success handle_packet runs. -/
def connection_step (state : ConnectionState) (frame : PacketFrame) :
    Except ProtocolError (ConnectionState × Bool) :=
  (ServerBoundPacket.decode state frame.id frame.data).map (handle_packet_step state)

/-- C3 counterexample: a Play-state frame with the unknown id 0x99 makes
ServerBoundPacket::decode return InvalidPacket; handle_connection's
`conn.read_packet().await?` propagates it and the connection closes — the
packet is not skipped and the connection does not continue. -/
theorem unknown_id_not_skipped :
    connection_step .play ⟨0x99, []⟩ = .error .invalidPacket := by rfl

/-- C3 amended: for every state and every id without a decode arm in that
state, the frame is FATAL: decode returns InvalidPacket and the error closes
the connection (the opposite of the claimed log-and-skip). -/
theorem unknown_id_decode_error (state : ConnectionState) (id : Int) (data : List Nat)
    (h : id ∉ knownServerBoundIds state) :
    ServerBoundPacket.decode state id data = .error .invalidPacket ∧
    connection_step state ⟨id, data⟩ = .error .invalidPacket := by
  have hd : ServerBoundPacket.decode state id data = .error .invalidPacket := by
    cases state
    case handshaking =>
      simp only [knownServerBoundIds, List.mem_singleton] at h
      simp [ServerBoundPacket.decode, h]
    case status =>
      simp only [knownServerBoundIds, List.mem_cons, List.mem_singleton, not_or] at h
      simp [ServerBoundPacket.decode, h.1, h.2]
    case login =>
      simp only [knownServerBoundIds, List.mem_cons, List.mem_singleton, not_or] at h
      simp [ServerBoundPacket.decode, h.1, h.2.1, h.2.2]
    case play =>
      simp only [knownServerBoundIds, List.mem_cons, List.mem_singleton, not_or] at h
      simp [ServerBoundPacket.decode, h.1, h.2.1, h.2.2.1, h.2.2.2.1, h.2.2.2.2.1,
        h.2.2.2.2.2.1, h.2.2.2.2.2.2.1, h.2.2.2.2.2.2.2]
  exact ⟨hd, by rw [connection_step, hd]; rfl⟩

/-- C3 witness: the unknown Play id 0x99 with an empty payload. -/
theorem unknown_id_decode_error_witness :
    ServerBoundPacket.decode .play 0x99 [] = .error .invalidPacket ∧
    connection_step .play ⟨0x99, []⟩ = .error .invalidPacket :=
  unknown_id_decode_error .play 0x99 [] (by decide)

/-- World from world/manager.rs: the chunks HashMap keyed by (chunkX, chunkZ),
modelled as a total function to Option Chunk.  The id/name strings, the entity
store and the locks play no part in the block-level claims and are omitted. -/
structure World where
  chunks : Int × Int → Option Chunk

/-- World::new: no chunks. -/
def World.new : World := ⟨fun _ => none⟩

def World.get_chunk (w : World) (x z : Int) : Option Chunk := w.chunks (x, z)

/-- World::set_chunk: insert keyed by the chunk's own position. -/
def World.set_chunk (w : World) (c : Chunk) : World :=
  ⟨fun p => if p = (c.position.x, c.position.z) then some c else w.chunks p⟩

/-- World::generate_chunk: a fresh chunk, flat-generated with height 4, inserted. -/
def World.generate_chunk (w : World) (x z : Int) : Chunk × World :=
  let chunk := (Chunk.new ⟨x, z⟩).generate_flat 4
  (chunk, w.set_chunk chunk)

def World.get_or_generate_chunk (w : World) (x z : Int) : Chunk × World :=
  match w.get_chunk x z with
  | some c => (c, w)
  | none => w.generate_chunk x z

/-- World::get_block: chunk coordinates by `>> 4` (arithmetic shift = floor
division by 16), local coordinates by `& 15` (mod 16, non-negative), air when
the chunk is absent or y is outside [0, CHUNK_HEIGHT). -/
def World.get_block (w : World) (x y z : Int) : Nat :=
  let chunkX := x / 16
  let chunkZ := z / 16
  match w.get_chunk chunkX chunkZ with
  | some chunk =>
    let localX := (x % 16).toNat
    let localZ := (z % 16).toNat
    if 0 ≤ y ∧ y < (CHUNK_HEIGHT : Int) then chunk.get_block localX y.toNat localZ
    else 0
  | none => 0

/-- World::set_block: write into the chunk in place when it exists, else
generate the chunk, write into the local copy, and insert it. -/
def World.set_block (w : World) (x y z : Int) (blockId : Nat) : World :=
  let chunkX := x / 16
  let chunkZ := z / 16
  match w.get_chunk chunkX chunkZ with
  | some chunk =>
    let localX := (x % 16).toNat
    let localZ := (z % 16).toNat
    let chunk := if 0 ≤ y ∧ y < (CHUNK_HEIGHT : Int)
      then chunk.set_block localX y.toNat localZ blockId else chunk
    ⟨fun p => if p = (chunkX, chunkZ) then some chunk else w.chunks p⟩
  | none =>
    let cw := w.generate_chunk chunkX chunkZ
    let localX := (x % 16).toNat
    let localZ := (z % 16).toNat
    let chunk := if 0 ≤ y ∧ y < (CHUNK_HEIGHT : Int)
      then cw.1.set_block localX y.toNat localZ blockId else cw.1
    cw.2.set_chunk chunk

/-- Inclusive integer range `a..=b` as a list. -/
def intRangeIncl (a b : Int) : List Int :=
  (List.range (b + 1 - a).toNat).map (fun i => a + (i : Int))

/-- The chunk coordinates emitted by MinecraftServer::send_spawn_chunks
(server/mod.rs), in emission order: the OUTER loop ranges over x, the INNER
loop over z, each over centre ± view_distance (2). -/
def send_spawn_chunks_coords (centerX centerZ : Int) : List (Int × Int) :=
  let viewDistance : Int := 2
  (intRangeIncl (centerX - viewDistance) (centerX + viewDistance)).flatMap (fun x =>
    (intRangeIncl (centerZ - viewDistance) (centerZ + viewDistance)).map (fun z => (x, z)))

/-- Modelled from the spec: the emission order the spec claims, row-major with
z as the OUTER loop and x as the inner loop (spec §4.2 "The order is row-major
(outer z, inner x)"); for comparison with the source's order. -/
def spawn_chunks_coords_spec (centerX centerZ : Int) : List (Int × Int) :=
  (intRangeIncl (centerZ - 2) (centerZ + 2)).flatMap (fun z =>
    (intRangeIncl (centerX - 2) (centerX + 2)).map (fun x => (x, z)))

/-- World effect of send_spawn_chunks: every visited chunk is fetched or
generated, in emission order. -/
def World.send_spawn_chunks (w : World) (centerX centerZ : Int) : World :=
  (send_spawn_chunks_coords centerX centerZ).foldl
    (fun w p => (World.get_or_generate_chunk w p.1 p.2).2) w

/-- World effect of MinecraftServer::handle_packet, one arm per source match
arm.  Only the LoginStart arm touches the chunk store (spawn-chunk streaming
around the origin); spawn_player touches the entity store only.  The
PlayerBlockPlacement arm (and PlayerDigging, ChatMessage, movement arms) only
log via tracing::info! — no sandbox hook, no World::set_block. -/
def handle_packet_world (w : World) (p : ServerBoundPacket) : World :=
  match p with
  | .handshake _ _ _ _ => w
  | .statusRequest => w
  | .statusPing _ => w
  | .loginStart _ _ => w.send_spawn_chunks 0 0
  | .loginEncryptionResponse _ _ => w
  | .loginPluginResponse _ _ => w
  | .keepAlive _ => w
  | .chatMessage _ => w
  | .playerPosition _ _ _ _ => w
  | .playerRotation _ _ _ => w
  | .playerPositionAndRotation _ _ _ _ _ _ => w
  | .playerDigging _ _ _ => w
  | .playerBlockPlacement _ _ _ _ _ _ _ => w
  | .pluginMessage _ _ => w

/-- The world after the S2 login flow on a fresh world: LoginStart streams the
25 spawn chunks, each flat-generated at height 4. -/
def worldAfterLogin : World := handle_packet_world World.new (.loginStart [] none)

theorem set_block_position (c : Chunk) (x y z blockId : Nat) :
    (c.set_block x y z blockId).position = c.position := by
  simp only [Chunk.set_block]
  split_ifs <;> rfl

theorem foldl_chunk_position {α : Type} (f : Chunk → α → Chunk)
    (hf : ∀ c a, (f c a).position = c.position) :
    ∀ (l : List α) (c : Chunk), (l.foldl f c).position = c.position := by
  intro l
  induction l with
  | nil => intro c; rfl
  | cons hd tl ih =>
    intro c
    rw [List.foldl_cons, ih, hf]

/-- generate_flat only writes blocks and heightmap entries: the position is kept. -/
theorem generate_flat_position (c : Chunk) (h : Nat) :
    (c.generate_flat h).position = c.position := by
  rw [Chunk.generate_flat]
  apply foldl_chunk_position
  intro c x
  apply foldl_chunk_position
  intro c z
  simp only
  show (if 1 < h then ((List.range' 1 (h - 1 - 1)).foldl (fun c y => c.set_block x y z 3)
      (c.set_block x 0 z 7)).set_block x (h - 1) z 2
    else (List.range' 1 (h - 1 - 1)).foldl (fun c y => c.set_block x y z 3)
      (c.set_block x 0 z 7)).position = c.position
  split_ifs
  · rw [set_block_position,
      foldl_chunk_position _ (fun c y => set_block_position c x y z 3), set_block_position]
  · rw [foldl_chunk_position _ (fun c y => set_block_position c x y z 3), set_block_position]

theorem foldl_chunk_inv {α : Type} (P : Chunk → Prop) (f : Chunk → α → Chunk) :
    ∀ (l : List α), (∀ c a, a ∈ l → P c → P (f c a)) →
      ∀ c : Chunk, P c → P (l.foldl f c) := by
  intro l
  induction l with
  | nil => intro _ c hc; exact hc
  | cons hd tl ih =>
    intro hstep c hc
    rw [List.foldl_cons]
    exact ih (fun c a ha hp => hstep c a (by simp [ha]) hp) _ (hstep c hd (by simp) hc)

theorem get_block_new (pos : ChunkPosition) (x y z : Nat) :
    (Chunk.new pos).get_block x y z = 0 := by
  simp only [Chunk.new, Chunk.get_block, ChunkSection.new, ChunkSection.get_block]
  split_ifs <;> rfl

/-- Cells at or above the generation height are untouched by generate_flat
(all its writes land strictly below `hgt`, given `1 ≤ hgt`). -/
theorem generate_flat_get_block_high (c : Chunk) (hgt : Nat) (x' y' z' : Nat)
    (hhgt : 1 ≤ hgt) (hx' : x' < 16) (hz' : z' < 16) (hy1 : hgt ≤ y') (hy2 : y' < 384) :
    (c.generate_flat hgt).get_block x' y' z' = c.get_block x' y' z' := by
  rw [Chunk.generate_flat]
  apply foldl_chunk_inv (P := fun c2 => c2.get_block x' y' z' = c.get_block x' y' z')
  · intro c2 x hx hP
    apply foldl_chunk_inv (P := fun c2 => c2.get_block x' y' z' = c.get_block x' y' z')
    · intro c3 z hz hP3
      rw [List.mem_range] at hx hz
      simp only [CHUNK_WIDTH] at hx hz
      simp only
      show (if 1 < hgt then ((List.range' 1 (hgt - 1 - 1)).foldl (fun c y => c.set_block x y z 3)
          (c3.set_block x 0 z 7)).set_block x (hgt - 1) z 2
        else (List.range' 1 (hgt - 1 - 1)).foldl (fun c y => c.set_block x y z 3)
          (c3.set_block x 0 z 7)).get_block x' y' z' = c.get_block x' y' z'
      have hbase : (c3.set_block x 0 z 7).get_block x' y' z' = c.get_block x' y' z' := by
        rw [get_set_block, if_neg (by omega)]
        exact hP3
      have hdirt : ((List.range' 1 (hgt - 1 - 1)).foldl (fun c y => c.set_block x y z 3)
          (c3.set_block x 0 z 7)).get_block x' y' z' = c.get_block x' y' z' := by
        apply foldl_chunk_inv
          (P := fun c2 => c2.get_block x' y' z' = c.get_block x' y' z')
        · intro c4 yw hyw hP4
          rw [List.mem_range'] at hyw
          obtain ⟨i, hi, rfl⟩ := hyw
          rw [get_set_block, if_neg (by omega)]
          exact hP4
        · exact hbase
      split_ifs with h1
      · rw [get_set_block, if_neg (by omega)]
        exact hdirt
      · exact hdirt
    · exact hP
  · rfl

/-- Membership in a cons list is membership in the tail when the head is excluded. -/
theorem mem_cons_of_ne_head {k hd : Int × Int} {tl : List (Int × Int)}
    (hk : ¬ k = (hd.1, hd.2)) : (k ∈ hd :: tl) = (k ∈ tl) := by
  apply propext
  constructor
  · intro hm
    rcases List.mem_cons.mp hm with he | ht
    · exact absurd (he.trans (Prod.mk.eta).symm) hk
    · exact ht
  · intro hm
    exact List.mem_cons.mpr (Or.inr hm)

/-- Reading the chunk map after the spawn-chunk fold: every coordinate in the
visited list that was absent holds a freshly flat-generated chunk; everything
else is as before. -/
theorem spawn_fold_chunk : ∀ (l : List (Int × Int)) (w : World) (k : Int × Int),
    (l.foldl (fun w p => (World.get_or_generate_chunk w p.1 p.2).2) w).chunks k
      = if k ∈ l ∧ w.chunks k = none
        then some ((Chunk.new ⟨k.1, k.2⟩).generate_flat 4)
        else w.chunks k := by
  intro l
  induction l with
  | nil =>
    intro w k
    simp
  | cons hd tl ih =>
    intro w k
    rw [List.foldl_cons, ih]
    have hkey : ((Chunk.new ⟨hd.1, hd.2⟩).generate_flat 4).position = ⟨hd.1, hd.2⟩ :=
      generate_flat_position _ _
    by_cases hw : w.chunks (hd.1, hd.2) = none
    · have hstep_pt : ((World.get_or_generate_chunk w hd.1 hd.2).2).chunks k
          = if k = (hd.1, hd.2) then some ((Chunk.new ⟨hd.1, hd.2⟩).generate_flat 4)
            else w.chunks k := by
        rw [World.get_or_generate_chunk, World.get_chunk, hw, World.generate_chunk]
        simp only [World.set_chunk, hkey]
      rw [hstep_pt]
      by_cases hk : k = (hd.1, hd.2)
      · have hmem : k ∈ hd :: tl := by
          rw [hk, Prod.mk.eta]
          exact List.mem_cons_self hd tl
        have hnone : w.chunks k = none := by rw [hk]; exact hw
        rw [if_pos hk, if_neg (by simp), if_pos ⟨hmem, hnone⟩]
        simp [hk]
      · rw [if_neg hk]
        simp only [mem_cons_of_ne_head hk]
    · have hstep : (World.get_or_generate_chunk w hd.1 hd.2).2 = w := by
        rw [World.get_or_generate_chunk, World.get_chunk]
        cases hh : w.chunks (hd.1, hd.2) with
        | none => exact absurd hh hw
        | some c => rfl
      rw [hstep]
      by_cases hk : k = (hd.1, hd.2)
      · have hno : ¬ (w.chunks k = none) := by rw [hk]; exact hw
        rw [if_neg (fun hc => hno hc.2), if_neg (fun hc => hno hc.2)]
      · simp only [mem_cons_of_ne_head hk]

/-- Evaluation rule of World::get_block on a present chunk. -/
theorem world_get_block_some (w : World) (x y z : Int) (c : Chunk)
    (h : w.get_chunk (x / 16) (z / 16) = some c) :
    w.get_block x y z = if 0 ≤ y ∧ y < (CHUNK_HEIGHT : Int)
      then c.get_block (x % 16).toNat y.toNat (z % 16).toNat else 0 := by
  rw [World.get_block]
  rw [show w.get_chunk (x / 16) (z / 16) = some c from h]

/-- The PlayerBlockPlacement arm of handle_packet returns the world unchanged. -/
theorem handle_block_placement_id (w : World) (loc : Int × Int × Int) (face hand : Int)
    (cx cy cz : Nat) (ib : Bool) :
    handle_packet_world w (.playerBlockPlacement loc face hand cx cy cz ib) = w := rfl

/-- After the login flow, the block at (3, 64, 5) is still air: the spawn chunk
at (0,0) is flat-generated with height 4 and nothing writes at or above y = 4. -/
theorem worldAfterLogin_get_block : worldAfterLogin.get_block 3 64 5 = 0 := by
  have hlogin : worldAfterLogin = World.new.send_spawn_chunks 0 0 := rfl
  have h3 : (3 : Int) / 16 = 0 := by decide
  have h5 : (5 : Int) / 16 = 0 := by decide
  have hchunk : (World.new.send_spawn_chunks 0 0).get_chunk ((3 : Int) / 16) ((5 : Int) / 16)
      = some ((Chunk.new ⟨0, 0⟩).generate_flat 4) := by
    rw [h3, h5, World.send_spawn_chunks, World.get_chunk, spawn_fold_chunk,
      if_pos ⟨by decide, rfl⟩]
  rw [hlogin, world_get_block_some _ _ _ _ _ hchunk, if_pos (by constructor <;> decide)]
  have h3m : ((3 : Int) % 16).toNat = 3 := by decide
  have h5m : ((5 : Int) % 16).toNat = 5 := by decide
  have h64 : (64 : Int).toNat = 64 := by decide
  rw [h3m, h5m, h64,
    generate_flat_get_block_high _ 4 3 64 5 (by omega) (by omega) (by omega) (by omega)
      (by omega),
    get_block_new]
/-- C4 counterexample: after the login flow, handling PlayerBlockPlacement at
block position (3, 64, 5) leaves get_block(3,64,5) = 0, not 4: the handler arm
only logs, calling neither the sandbox hook nor World::set_block. -/
theorem block_placement_not_applied :
    (handle_packet_world worldAfterLogin
      (.playerBlockPlacement (3, 64, 5) 1 0 0 0 0 false)).get_block 3 64 5 = 0 ∧
    (handle_packet_world worldAfterLogin
      (.playerBlockPlacement (3, 64, 5) 1 0 0 0 0 false)).get_block 3 64 5 ≠ 4 := by
  rw [handle_block_placement_id, worldAfterLogin_get_block]
  exact ⟨rfl, by omega⟩

/-- C4 amended: the PlayerBlockPlacement arm of handle_packet only logs — it
invokes no sandbox hook and performs no world write, so the world is unchanged;
in particular, after the login flow get_block(3,64,5) still returns 0 (the
flat spawn chunks occupy only y < 4), and the heightmap is untouched. -/
theorem block_placement_world_unchanged (w : World) (loc : Int × Int × Int)
    (face hand : Int) (cx cy cz : Nat) (ib : Bool) :
    handle_packet_world w (.playerBlockPlacement loc face hand cx cy cz ib) = w ∧
    (handle_packet_world worldAfterLogin
      (.playerBlockPlacement (3, 64, 5) 1 0 0 0 0 false)).get_block 3 64 5 = 0 :=
  ⟨handle_block_placement_id w loc face hand cx cy cz ib, by
    rw [handle_block_placement_id]
    exact worldAfterLogin_get_block⟩

/-- C9 counterexample: the emitted chunk order differs from the spec's claimed
row-major outer-z inner-x order (the source iterates x in the outer loop):
already the second emitted chunk is (-2,-1), not (-1,-2). -/
theorem spawn_chunk_order_mismatch :
    send_spawn_chunks_coords 0 0 ≠ spawn_chunks_coords_spec 0 0 ∧
    (send_spawn_chunks_coords 0 0).getD 1 (0, 0) = (-2, -1) ∧
    (spawn_chunks_coords_spec 0 0).getD 1 (0, 0) = (-1, -2) := by
  refine ⟨by decide, by decide, by decide⟩

/-- C9 amended: after a successful login exactly 25 ChunkData packets are sent,
covering chunk coordinates (-2..2, -2..2) (view radius 2 around the origin),
emitted row-major with x as the OUTER loop and z as the inner loop. -/
theorem spawn_chunks_emission :
    send_spawn_chunks_coords 0 0 =
      [(-2, -2), (-2, -1), (-2, 0), (-2, 1), (-2, 2),
       (-1, -2), (-1, -1), (-1, 0), (-1, 1), (-1, 2),
       (0, -2), (0, -1), (0, 0), (0, 1), (0, 2),
       (1, -2), (1, -1), (1, 0), (1, 1), (1, 2),
       (2, -2), (2, -1), (2, 0), (2, 1), (2, 2)] ∧
    (send_spawn_chunks_coords 0 0).length = 25 := by
  refine ⟨by decide, by decide⟩

/-- Fuel-metered sandbox store, modelling the wasmtime Store fuel used by
sandbox/wasm_runtime.rs: Store::set_fuel sets the counter to an absolute
amount, guest execution consumes it, and a call traps (aborts, without killing
the instance) when its cost exceeds the remaining fuel. -/
structure WasmRuntime where
  fuel : Nat
  deriving DecidableEq

/-- WasmRuntime::new: `store.set_fuel(1_000_000_000)` — the only set_fuel call
the production code ever makes. -/
def WasmRuntime.new : WasmRuntime := { fuel := 1000000000 }

/-- WasmRuntime::call_function invoking a guest export whose execution costs
`cost` fuel: fuel is consumed; the Bool reports whether the call completed
(false = trap by fuel exhaustion). -/
def WasmRuntime.call_function (rt : WasmRuntime) (cost : Nat) : WasmRuntime × Bool :=
  ({ fuel := rt.fuel - cost }, decide (cost ≤ rt.fuel))

/-- WasmRuntime::tick: exactly `self.call_function("tick", &[])` — no set_fuel
before or after the call. -/
def WasmRuntime.tick (rt : WasmRuntime) (cost : Nat) : WasmRuntime × Bool :=
  rt.call_function cost

/-- WasmRuntime::refuel: `store.set_fuel(fuel)`.  Defined in the source but
invoked from nowhere — no tick path calls it. -/
def WasmRuntime.refuel (rt : WasmRuntime) (fuel : Nat) : WasmRuntime :=
  { rt with fuel := fuel }

/-- C5 counterexample: after a first tick consuming 5 units, the next tick's
invocation begins with 10^9 - 5 fuel, not the full per-tick budget: tick does
not refuel. -/
theorem tick_does_not_refuel :
    ((WasmRuntime.new.tick 5).1).fuel ≠ 1000000000 := by decide

/-- C5 amended: fuel is set to the 10^9 budget exactly once, at
WasmRuntime::new; tick runs the hook on whatever fuel is left, consuming the
call's cost and never adding any, so fuel decreases monotonically across
ticks; only the refuel method (which no tick path ever calls) can restore it. -/
theorem fuel_set_once_monotone :
    WasmRuntime.new.fuel = 1000000000 ∧
    (∀ (rt : WasmRuntime) (cost : Nat), ((rt.tick cost).1).fuel = rt.fuel - cost) ∧
    (∀ (rt : WasmRuntime) (cost : Nat), ((rt.tick cost).1).fuel ≤ rt.fuel) ∧
    (∀ (rt : WasmRuntime) (f : Nat), (rt.refuel f).fuel = f) :=
  ⟨rfl, fun _ _ => rfl, fun rt cost => Nat.sub_le rt.fuel cost, fun _ _ => rfl⟩

end Plunkit
